import Mathlib

/-!
Shallow embedding of the two scripts in madprops/gems: `pacsize.py` and
`pacremove.py`.  Python strings are modelled as Lean `String` (a list of
characters); Python floats are modelled as exact rationals `ℚ` (all the
arithmetic the scripts perform on the relevant integer byte counts is exact
in IEEE doubles, so `ℚ` agrees with the float semantics there); fallible
Python code (code that can raise `ValueError`) returns `Except String _`.
External subprocesses are modelled by passing their captured text output /
return code in as explicit arguments.
-/

set_option maxRecDepth 20000

/-- ASCII whitespace: the characters stripped by Python `str.strip()` and
used as separators by `str.split()` (space, tab, newline, carriage return,
vertical tab, form feed).  Non-ASCII whitespace is not modelled. -/
def isSpace (c : Char) : Bool :=
  decide (c.toNat = 32 ∨ c.toNat = 9 ∨ c.toNat = 10 ∨ c.toNat = 13 ∨
    c.toNat = 11 ∨ c.toNat = 12)

/-- ASCII decimal digit, the characters accepted by Python `str.isdigit()`
restricted to ASCII (non-ASCII unicode digits are not modelled). -/
def isDigitChar (c : Char) : Bool :=
  decide (48 ≤ c.toNat ∧ c.toNat ≤ 57)

/-- Value of a list of decimal digit characters, most significant first,
as computed by Python `int()` on a digit string. -/
def digitsToNat (cs : List Char) : ℕ :=
  cs.foldl (fun a c => a * 10 + (c.toNat - 48)) 0

/-- Decimal rendering of a natural number, fuel-based so that it reduces in
the kernel.  `fuel` must exceed `n`. -/
def natToDigitsAux : ℕ → ℕ → List Char → List Char
  | 0, _, acc => acc
  | fuel + 1, n, acc =>
    if n < 10 then Char.ofNat (48 + n) :: acc
    else natToDigitsAux fuel (n / 10) (Char.ofNat (48 + n % 10) :: acc)

/-- Decimal rendering of a natural number, as produced by Python string
formatting of a nonnegative integer. -/
def natToDigits (n : ℕ) : List Char :=
  natToDigitsAux (n + 1) n []

/-- Split a character list on runs of whitespace, dropping empty tokens:
the behaviour of Python `str.split()` with no separator argument.  `acc`
holds the current token, reversed. -/
def splitWsAux : List Char → List Char → List (List Char)
  | [], acc => if acc.isEmpty then [] else [acc.reverse]
  | c :: t, acc =>
    if isSpace c then
      if acc.isEmpty then splitWsAux t [] else acc.reverse :: splitWsAux t []
    else splitWsAux t (c :: acc)

/-- Python `s.split()` (no arguments): split on whitespace runs. -/
def pySplitWs (s : String) : List String :=
  (splitWsAux s.data []).map String.mk

/-- Python `s.strip()` on a character list: drop leading and trailing
whitespace. -/
def stripChars (cs : List Char) : List Char :=
  ((cs.dropWhile isSpace).reverse.dropWhile isSpace).reverse

/-- Python `s.strip()`. -/
def pyStrip (s : String) : String :=
  String.mk (stripChars s.data)

/-- Python `s.split(sep, 1)` for a single-character separator: split at the
first occurrence only.  Returns one part (no separator) or two. -/
def splitColonAux : List Char → List Char → List (List Char)
  | [], acc => [acc.reverse]
  | c :: t, acc => if c = ':' then [acc.reverse, t] else splitColonAux t (c :: acc)

/-- Python `line.split(":", 1)`. -/
def splitColonOnce (s : String) : List String :=
  (splitColonAux s.data []).map String.mk

/-- Python `s.splitlines()` on a character list, with the newline character
modelled as a plain `'\n'` (the scripts only ever see `'\n'`-separated
subprocess output).  A trailing newline does not produce an empty line. -/
def splitLinesAux : List Char → List Char → List (List Char)
  | [], acc => [acc.reverse]
  | c :: t, acc =>
    if c = '\n' then
      if t.isEmpty then [acc.reverse] else acc.reverse :: splitLinesAux t []
    else splitLinesAux t (c :: acc)

/-- Python `s.splitlines()`: the empty string yields no lines. -/
def pySplitLines (s : String) : List String :=
  if s.data.isEmpty then [] else (splitLinesAux s.data []).map String.mk

/-- List prefix test on characters (helper for `startsWithPy`). -/
def isPrefixList : List Char → List Char → Bool
  | [], _ => true
  | _ :: _, [] => false
  | a :: as, b :: bs => decide (a = b) && isPrefixList as bs

/-- Python `s.startswith(p)`. -/
def startsWithPy (s p : String) : Bool :=
  isPrefixList p.data s.data

/-- Python `s.isdigit()` restricted to ASCII: nonempty and all ASCII
digits. -/
def pyIsDigit (s : String) : Bool :=
  !s.data.isEmpty && s.data.all isDigitChar

/-- Strip an optional leading sign, returning the sign (as `1` or `-1`) and
the rest: the sign handling of Python numeric literal parsing. -/
def stripSign (cs : List Char) : ℤ × List Char :=
  match cs with
  | [] => (1, [])
  | c :: t => if c = '+' then (1, t) else if c = '-' then (-1, t) else (1, c :: t)

/-- Split at the first `'.'`, if any (helper for float literal parsing). -/
def splitDotAux : List Char → List Char → List Char × Option (List Char)
  | [], acc => (acc.reverse, none)
  | c :: t, acc => if c = '.' then (acc.reverse, some t) else splitDotAux t (c :: acc)

/-- Split at the first `'e'` or `'E'`, if any (helper for float literal
parsing). -/
def splitEAux : List Char → List Char → List Char × Option (List Char)
  | [], acc => (acc.reverse, none)
  | c :: t, acc =>
    if c = 'e' ∨ c = 'E' then (acc.reverse, some t) else splitEAux t (c :: acc)

/-- Exponent part of a Python float literal: optional sign then a nonempty
digit string. -/
def parseExp (cs : List Char) : Option ℤ :=
  let p := stripSign cs
  if ¬ p.2.isEmpty ∧ p.2.all isDigitChar then some (p.1 * digitsToNat p.2)
  else none

/-- Mantissa of a Python float literal: optional sign, digits with at most
one decimal point, at least one digit overall. -/
def parseMantissa (cs : List Char) : Option ℚ :=
  let p := stripSign cs
  match splitDotAux p.2 [] with
  | (ip, none) =>
    if ¬ ip.isEmpty ∧ ip.all isDigitChar then
      some ((p.1 : ℚ) * digitsToNat ip)
    else none
  | (ip, some fp) =>
    if ¬ (ip.isEmpty ∧ fp.isEmpty) ∧ ip.all isDigitChar ∧ fp.all isDigitChar then
      some ((p.1 : ℚ) * ((digitsToNat ip : ℚ) + (digitsToNat fp : ℚ) / 10 ^ fp.length))
    else none

/-- Python `float()` on a character list: decimal literal with optional
sign, decimal point and exponent, exactly valued in `ℚ`.  The special forms
`inf` and `nan` and underscore digit grouping are not modelled; `none`
models the `ValueError` raised on a malformed literal. -/
def pyFloatVal (cs : List Char) : Option ℚ :=
  match splitEAux cs [] with
  | (mant, none) => parseMantissa mant
  | (mant, some ex) =>
    match parseMantissa mant, parseExp ex with
    | some m, some e => some (m * (10 : ℚ) ^ e)
    | _, _ => none

/-- Python `float(s)`, with `none` for a raised `ValueError`. -/
def pyFloat (s : String) : Option ℚ :=
  pyFloatVal s.data

/-- Round a rational to the nearest integer, ties to even: the rounding
performed by Python `format(x, ".2f")` on an exactly-representable value
(after scaling by 100). -/
def rnd2 (q : ℚ) : ℤ :=
  if q - ⌊q⌋ < 1 / 2 then ⌊q⌋
  else if 1 / 2 < q - ⌊q⌋ then ⌊q⌋ + 1
  else if ⌊q⌋ % 2 = 0 then ⌊q⌋ else ⌊q⌋ + 1

/-- Single decimal digit character (`d` must be below 10). -/
def digitChar (d : ℕ) : Char :=
  Char.ofNat (48 + d)

/-- Characters of the fixed-two-decimals rendering of `n / 100`:
integer part, point, exactly two decimal digits. -/
def fmt2chars (n : ℕ) : List Char :=
  natToDigits (n / 100) ++ '.' :: digitChar (n / 10 % 10) :: [digitChar (n % 10)]

/-- Python f-string `f"{q:.2f}"` for a nonnegative value: round half-even
to hundredths, render with exactly two decimals. -/
def fmt2 (q : ℚ) : String :=
  String.mk (fmt2chars (rnd2 (q * 100)).toNat)

/-- Unit multiplier table of `parse_size` (pacsize.py lines 58-64):
`multipliers.get(unit, 1)` with unknown units falling back to 1. -/
def multipliers (u : String) : ℚ :=
  if u = "B" then 1
  else if u = "KiB" then 1024
  else if u = "MiB" then 1024 ^ 2
  else if u = "GiB" then 1024 ^ 3
  else if u = "TiB" then 1024 ^ 4
  else 1

/-- pacsize.py `parse_size` (lines 49-65): split on whitespace; anything
other than exactly two tokens yields 0; otherwise `float(parts[0])` (which
raises `ValueError`, modelled as `.error`, on a malformed literal) times
the unit multiplier. -/
def parse_size (size_str : String) : Except String ℚ :=
  match pySplitWs size_str with
  | [v, u] =>
    match pyFloat v with
    | some val => .ok (val * multipliers u)
    | none => .error "ValueError"
  | _ => .ok 0

/-- Loop of `format_size` (pacsize.py lines 68-72, pacremove.py lines 5-9):
repeatedly divide by 1024 while walking the unit list; return the value and
unit at which the loop stops (value below 1024, or the `"TiB"` fallback
after the list is exhausted). -/
def format_size_core : ℚ → List String → ℚ × String
  | x, [] => (x, "TiB")
  | x, u :: us => if x < 1024 then (x, u) else format_size_core (x / 1024) us

/-- Unit list of pacsize.py `format_size` (line 68). -/
def pacUnits : List String := ["B", "KiB", "MiB", "GiB"]

/-- Unit list of pacremove.py `format_size` (line 5), one entry longer. -/
def rmUnits : List String := ["B", "KiB", "MiB", "GiB", "TiB"]

/-- pacsize.py `format_size` (lines 67-72). -/
def format_size (bytes_val : ℚ) : String :=
  fmt2 (format_size_core bytes_val pacUnits).1 ++ " " ++
    (format_size_core bytes_val pacUnits).2

/-- pacremove.py `format_size` (lines 4-10); differs from the pacsize one
only in having `"TiB"` inside the loop list. -/
def format_size_rm (size_bytes : ℚ) : String :=
  fmt2 (format_size_core size_bytes rmUnits).1 ++ " " ++
    (format_size_core size_bytes rmUnits).2

/-- Python dict assignment `sizes[k] = v`: replace the value at an existing
key in place, else append the new binding. -/
def dictInsert (m : List (String × ℚ)) (k : String) (v : ℚ) : List (String × ℚ) :=
  match m with
  | [] => [(k, v)]
  | p :: t => if p.1 = k then (k, v) :: t else p :: dictInsert t k v

/-- Body of the parsing loop of `get_installed_size_batch` (pacsize.py
lines 34-45) for one line: strip; a line starting with `"Name"` and
containing a colon sets the current package; a line starting with
`"Installed Size"` while the current package is truthy (set and nonempty)
parses the trailing value via `parse_size` (which can raise), stores it and
clears the current package. -/
def procLine (st : List (String × ℚ) × Option String) (line : String) :
    Except String (List (String × ℚ) × Option String) :=
  if startsWithPy (pyStrip line) "Name" then
    match splitColonOnce (pyStrip line) with
    | [_, rest] => .ok (st.1, some (pyStrip rest))
    | _ => .ok st
  else if startsWithPy (pyStrip line) "Installed Size" then
    match st.2 with
    | some pkg =>
      if pkg ≠ "" then
        match splitColonOnce (pyStrip line) with
        | [_, rest] =>
          match parse_size (pyStrip rest) with
          | .ok v => .ok (dictInsert st.1 pkg v, none)
          | .error e => .error e
        | _ => .ok st
      else .ok st
    | none => .ok st
  else .ok st

/-- The parsing loop of `get_installed_size_batch`, threading the state
(the sizes dict and the current package) over the lines. -/
def runLines : List String → List (String × ℚ) × Option String →
    Except String (List (String × ℚ) × Option String)
  | [], st => .ok st
  | l :: ls, st =>
    match procLine st l with
    | .ok st2 => runLines ls st2
    | .error e => .error e

/-- Parse the full `pacman -Si` stdout into the sizes dict (pacsize.py
lines 30-47, after the subprocess call). -/
def parsePacmanOutput (out : String) : Except String (List (String × ℚ)) :=
  match runLines (pySplitLines out) ([], none) with
  | .ok st => .ok st.1
  | .error e => .error e

/-- pacsize.py `get_installed_size_batch` (lines 6-47) with the external
`pacman -Si` stdout passed in explicitly.  The boolean records whether the
external command was invoked: an empty package list short-circuits to an
empty dict before the subprocess call (lines 11-12). -/
def get_installed_size_batch (packages : List String) (out : String) :
    Bool × Except String (List (String × ℚ)) :=
  if packages.isEmpty then (false, .ok [])
  else (true, parsePacmanOutput out)

/-- Python `int(s)` as used in pacremove.py line 43, reached only behind an
`isdigit` guard; on a non-digit string `int` raises `ValueError`. -/
def pyInt (s : String) : Except String ℕ :=
  if pyIsDigit s then .ok (digitsToNat s.data) else .error "ValueError"

/-- Summation loop of `get_removal_size` (pacremove.py lines 39-43): strip
each line; if it is all digits, convert with `int` and add to the running
total, otherwise skip it. -/
def runRemovalLines : List String → ℕ → Except String ℕ
  | [], acc => .ok acc
  | l :: ls, acc =>
    let t := pyStrip l
    if pyIsDigit t then
      match pyInt t with
      | .ok n => runRemovalLines ls (acc + n)
      | .error e => .error e
    else runRemovalLines ls acc

/-- Captured result of a subprocess invocation. -/
structure CmdResult where
  returncode : ℤ
  stdout : String
  stderr : String

/-- pacremove.py `get_removal_size` (lines 12-38) with the subprocess
result passed in explicitly.  Returns the lines printed and the optional
total: on a nonzero return code it prints the error banner and the stripped
stderr and returns `none`; otherwise it sums the digit lines of stdout.
The parse loop cannot raise (see `runRemovalLines_ok`), so its error branch
is unreachable. -/
def get_removal_size (r : CmdResult) : List String × Option ℕ :=
  if r.returncode ≠ 0 then
    (["Error: Pacman returned an error.", pyStrip r.stderr], none)
  else
    match runRemovalLines (pySplitLines r.stdout) 0 with
    | .ok n => ([], some n)
    | .error e => ([e], none)

/-- Report printed by pacremove.py `main` (lines 57-62): the space-freed
block is printed only when `get_removal_size` returned a total. -/
def removalReport (total : Option ℕ) : List String :=
  match total with
  | some t => [String.mk (List.replicate 40 '-'),
      "Space to be freed: " ++ format_size_rm (t : ℚ),
      String.mk (List.replicate 40 '-')]
  | none => []

/-- Literal alternatives of the anchored regex `opt_pattern` in
`guess_location` (pacsize.py line 98).  Since every alternative is a plain
literal and the pattern is anchored at the start (`re.match` with `^`), the
regex matches exactly when one of these is a string prefix of the name. -/
def opt_patterns : List String :=
  ["rocm-", "hip-", "hsa-", "miopen-", "rccl", "comgr", "roc", "amd",
   "migraphx", "mivisionx"]

/-- pacsize.py `guess_location` (lines 92-102). -/
def guess_location (pkg_name : String) : String :=
  if opt_patterns.any (fun p => startsWithPy pkg_name p) then "/opt" else "/usr"

/-- Stable descending insertion (helper for the sort in pacsize.py line
119). -/
def insertDesc (p : String × ℚ) : List (String × ℚ) → List (String × ℚ)
  | [] => [p]
  | q :: t => if q.2 < p.2 then p :: q :: t else q :: insertDesc p t

/-- pacsize.py line 119: `sorted(size_map.items(), key=..., reverse=True)`,
a stable sort by size descending. -/
def sortSizeDesc (m : List (String × ℚ)) : List (String × ℚ) :=
  m.foldl (fun acc p => insertDesc p acc) []

/-- Bucket accumulation of pacsize.py `main` (lines 116-127): fold over the
packages, adding each size to the `/opt` or `/usr` bucket according to
`guess_location`.  The two buckets of the `stats` dict are modelled as a
pair (`/opt` first). -/
def accumulateStats (pkgs : List (String × ℚ)) : ℚ × ℚ :=
  pkgs.foldl
    (fun st p =>
      if guess_location p.1 = "/opt" then (st.1 + p.2, st.2) else (st.1, st.2 + p.2))
    (0, 0)

/-- pacsize.py line 134: `/opt` percentage, guarded against a zero total. -/
def opt_pct (stats : ℚ × ℚ) : ℚ :=
  if stats.1 + stats.2 > 0 then stats.1 / (stats.1 + stats.2) * 100 else 0

/-- pacsize.py line 135: `/usr` percentage, guarded against a zero total. -/
def usr_pct (stats : ℚ × ℚ) : ℚ :=
  if stats.1 + stats.2 > 0 then stats.2 / (stats.1 + stats.2) * 100 else 0

/-! Basic facts about the string-level helpers. -/

theorem data_append (a b : String) : (a ++ b).data = a.data ++ b.data := by
  cases a; cases b; rfl

theorem mk_data (s : String) : String.mk s.data = s := by
  cases s; rfl

theorem digit_ofNat_facts (d : ℕ) (hd : d < 10) :
    isDigitChar (Char.ofNat (48 + d)) = true ∧ (Char.ofNat (48 + d)).toNat = 48 + d := by
  interval_cases d <;> exact ⟨by decide, by decide⟩

theorem digit_class {c : Char} (h : isDigitChar c = true) :
    isSpace c = false ∧ ¬ c = '.' ∧ ¬ c = 'e' ∧ ¬ c = 'E' ∧ ¬ c = '+' ∧ ¬ c = '-' := by
  simp only [isDigitChar, decide_eq_true_eq] at h
  refine ⟨?_, ?_, ?_, ?_, ?_, ?_⟩
  · simp only [isSpace, decide_eq_false_iff_not]
    omega
  · rintro rfl; revert h; decide
  · rintro rfl; revert h; decide
  · rintro rfl; revert h; decide
  · rintro rfl; revert h; decide
  · rintro rfl; revert h; decide

theorem digitsToNat_append_digit (l : List Char) (c : Char) :
    digitsToNat (l ++ [c]) = digitsToNat l * 10 + (c.toNat - 48) := by
  simp [digitsToNat, List.foldl_append]

theorem natToDigitsAux_spec :
    ∀ fuel n acc, n < fuel →
      ∃ ds, natToDigitsAux fuel n acc = ds ++ acc ∧ ds ≠ [] ∧
        (∀ c ∈ ds, isDigitChar c = true) ∧ digitsToNat ds = n := by
  intro fuel
  induction fuel with
  | zero => intro n acc h; omega
  | succ fuel ih =>
    intro n acc h
    by_cases h10 : n < 10
    · refine ⟨[Char.ofNat (48 + n)], ?_, by simp, ?_, ?_⟩
      · simp [natToDigitsAux, h10]
      · intro c hc
        simp only [List.mem_singleton] at hc
        subst hc
        exact (digit_ofNat_facts n h10).1
      · have := (digit_ofNat_facts n h10).2
        simp [digitsToNat, this]
    · have hrec : n / 10 < fuel := by
        have hn : 0 < n := by omega
        have := Nat.div_lt_self hn (by norm_num : 1 < 10)
        omega
      obtain ⟨ds, hds, hne, hdig, hval⟩ := ih (n / 10) (Char.ofNat (48 + n % 10) :: acc) hrec
      refine ⟨ds ++ [Char.ofNat (48 + n % 10)], ?_, by simp [hne], ?_, ?_⟩
      · simp only [natToDigitsAux, if_neg h10, hds, List.append_assoc, List.singleton_append]
      · intro c hc
        rcases List.mem_append.mp hc with hc | hc
        · exact hdig c hc
        · simp only [List.mem_singleton] at hc
          subst hc
          exact (digit_ofNat_facts _ (Nat.mod_lt n (by norm_num))).1
      · rw [digitsToNat_append_digit, hval,
          (digit_ofNat_facts _ (Nat.mod_lt n (by norm_num))).2]
        omega

theorem natToDigits_facts (n : ℕ) :
    natToDigits n ≠ [] ∧ (∀ c ∈ natToDigits n, isDigitChar c = true) ∧
      digitsToNat (natToDigits n) = n := by
  obtain ⟨ds, hds, hne, hdig, hval⟩ := natToDigitsAux_spec (n + 1) n [] (by omega)
  rw [natToDigits, hds, List.append_nil]
  exact ⟨hne, hdig, hval⟩

theorem splitWsAux_token :
    ∀ (l acc : List Char), (∀ c ∈ l, isSpace c = false) → acc.reverse ++ l ≠ [] →
      splitWsAux l acc = [acc.reverse ++ l] := by
  intro l
  induction l with
  | nil =>
    intro acc _ hne
    cases acc with
    | nil => simp at hne
    | cons a t => simp [splitWsAux]
  | cons c t ih =>
    intro acc hns hne
    have hc : isSpace c = false := hns c (by simp)
    simp only [splitWsAux, hc, Bool.false_eq_true, if_false]
    rw [ih (c :: acc) (fun x hx => hns x (by simp [hx])) (by simp)]
    simp

theorem splitWsAux_break (l2 : List Char) :
    ∀ (l1 acc : List Char), (∀ c ∈ l1, isSpace c = false) → acc.reverse ++ l1 ≠ [] →
      splitWsAux (l1 ++ ' ' :: l2) acc = (acc.reverse ++ l1) :: splitWsAux l2 [] := by
  intro l1
  induction l1 with
  | nil =>
    intro acc _ hne
    cases acc with
    | nil => simp at hne
    | cons a t => simp [splitWsAux, show isSpace ' ' = true from rfl]
  | cons c t ih =>
    intro acc hns hne
    have hc : isSpace c = false := hns c (by simp)
    simp only [List.cons_append, splitWsAux, hc, Bool.false_eq_true, if_false,
      List.append_eq]
    rw [ih (c :: acc) (fun x hx => hns x (by simp [hx])) (by simp)]
    simp

theorem splitEAux_none :
    ∀ (l acc : List Char), (∀ c ∈ l, ¬ c = 'e' ∧ ¬ c = 'E') →
      splitEAux l acc = (acc.reverse ++ l, none) := by
  intro l
  induction l with
  | nil => intro acc _; simp [splitEAux]
  | cons c t ih =>
    intro acc h
    have hc := h c (by simp)
    simp only [splitEAux]
    rw [if_neg (by tauto), ih (c :: acc) (fun x hx => h x (by simp [hx]))]
    simp

theorem splitDotAux_app (l2 : List Char) :
    ∀ (l1 acc : List Char), (∀ c ∈ l1, ¬ c = '.') →
      splitDotAux (l1 ++ '.' :: l2) acc = (acc.reverse ++ l1, some l2) := by
  intro l1
  induction l1 with
  | nil => intro acc _; simp [splitDotAux]
  | cons c t ih =>
    intro acc h
    have hc := h c (by simp)
    simp only [List.cons_append, splitDotAux, List.append_eq]
    rw [if_neg hc, ih (c :: acc) (fun x hx => h x (by simp [hx]))]
    simp

theorem stripSign_of_head (c : Char) (t : List Char) (h1 : ¬ c = '+') (h2 : ¬ c = '-') :
    stripSign (c :: t) = (1, c :: t) := by
  simp [stripSign, h1, h2]

theorem fmt2chars_facts (n : ℕ) :
    fmt2chars n ≠ [] ∧ (∀ c ∈ fmt2chars n, isSpace c = false) := by
  obtain ⟨hne, hdig, _⟩ := natToDigits_facts (n / 100)
  constructor
  · simp [fmt2chars]
  · intro c hc
    simp only [fmt2chars, digitChar, List.mem_append, List.mem_cons,
      List.not_mem_nil, or_false] at hc
    rcases hc with hc | hc | hc | hc
    · exact (digit_class (hdig c hc)).1
    · subst hc; decide
    · subst hc
      exact (digit_class (digit_ofNat_facts _ (by omega : n / 10 % 10 < 10)).1).1
    · subst hc
      exact (digit_class (digit_ofNat_facts _ (by omega : n % 10 < 10)).1).1

theorem pyFloatVal_fmt2chars (n : ℕ) :
    pyFloatVal (fmt2chars n) = some ((n : ℚ) / 100) := by
  obtain ⟨hne, hdig, hval⟩ := natToDigits_facts (n / 100)
  have heE : ∀ c ∈ fmt2chars n, ¬ c = 'e' ∧ ¬ c = 'E' := by
    intro c hc
    simp only [fmt2chars, digitChar, List.mem_append, List.mem_cons,
      List.not_mem_nil, or_false] at hc
    rcases hc with hc | hc | hc | hc
    · have h := digit_class (hdig c hc); tauto
    · subst hc; exact ⟨by decide, by decide⟩
    · subst hc
      have h := digit_class (digit_ofNat_facts _ (by omega : n / 10 % 10 < 10)).1
      tauto
    · subst hc
      have h := digit_class (digit_ofNat_facts _ (by omega : n % 10 < 10)).1
      tauto
  unfold pyFloatVal
  rw [splitEAux_none _ [] heE]
  simp only [List.reverse_nil, List.nil_append]
  rcases hnd : natToDigits (n / 100) with _ | ⟨c0, t0⟩
  · exact absurd hnd hne
  have hc0 : isDigitChar c0 = true := by
    apply hdig; rw [hnd]; simp
  have hfm : fmt2chars n =
      c0 :: (t0 ++ '.' :: digitChar (n / 10 % 10) :: [digitChar (n % 10)]) := by
    rw [fmt2chars, hnd]; simp
  unfold parseMantissa
  rw [hfm, stripSign_of_head c0 _ (digit_class hc0).2.2.2.2.1 (digit_class hc0).2.2.2.2.2]
  have hdot : ∀ c ∈ c0 :: t0, ¬ c = '.' := by
    intro c hc
    have : isDigitChar c = true := by apply hdig; rw [hnd]; exact hc
    exact (digit_class this).2.1
  have happ : c0 :: (t0 ++ '.' :: digitChar (n / 10 % 10) :: [digitChar (n % 10)]) =
      (c0 :: t0) ++ '.' :: digitChar (n / 10 % 10) :: [digitChar (n % 10)] := by simp
  simp only [happ]
  rw [splitDotAux_app _ _ [] hdot]
  simp only [List.reverse_nil, List.nil_append]
  rw [if_pos]
  · have hln : ([digitChar (n / 10 % 10), digitChar (n % 10)] : List Char).length = 2 := rfl
    have hfv : digitsToNat [digitChar (n / 10 % 10), digitChar (n % 10)] = n % 100 := by
      simp only [digitsToNat, List.foldl, digitChar,
        (digit_ofNat_facts _ (by omega : n / 10 % 10 < 10)).2,
        (digit_ofNat_facts _ (by omega : n % 10 < 10)).2]
      omega
    have hiv : digitsToNat (c0 :: t0) = n / 100 := by rw [← hnd]; exact hval
    rw [hln, hiv, hfv]
    have hnat : (n / 100) * 100 + n % 100 = n := by omega
    have hq : ((n / 100 : ℕ) : ℚ) * 100 + ((n % 100 : ℕ) : ℚ) = (n : ℚ) := by
      exact_mod_cast congrArg (fun m : ℕ => (m : ℚ)) hnat
    push_cast
    push_cast at hq
    rw [Option.some.injEq]
    field_simp
    linarith
  · refine ⟨by simp, ?_, ?_⟩
    · rw [List.all_eq_true]
      intro c hc
      apply hdig; rw [hnd]; exact hc
    · rw [List.all_eq_true]
      intro c hc
      simp only [List.mem_cons, List.mem_singleton] at hc
      rcases hc with hc | hc | hc
      · subst hc; exact (digit_ofNat_facts _ (by omega : n / 10 % 10 < 10)).1
      · subst hc; exact (digit_ofNat_facts _ (by omega : n % 10 < 10)).1
      · cases hc

theorem parse_size_two (s v u : String) (h : pySplitWs s = [v, u]) :
    parse_size s =
      match pyFloat v with
      | some val => .ok (val * multipliers u)
      | none => .error "ValueError" := by
  unfold parse_size
  rw [h]

theorem parse_size_fmtstr (n : ℕ) (u : String) (hu : u.data ≠ [])
    (hus : ∀ c ∈ u.data, isSpace c = false) :
    parse_size (String.mk (fmt2chars n) ++ " " ++ u) = .ok ((n : ℚ) / 100 * multipliers u) := by
  obtain ⟨hfne, hfns⟩ := fmt2chars_facts n
  have hdata : (String.mk (fmt2chars n) ++ " " ++ u).data = fmt2chars n ++ ' ' :: u.data := by
    rw [data_append, data_append]
    simp
  have hsplit : pySplitWs (String.mk (fmt2chars n) ++ " " ++ u) = [String.mk (fmt2chars n), u] := by
    unfold pySplitWs
    rw [hdata, splitWsAux_break u.data (fmt2chars n) [] hfns (by simp [hfne]),
      splitWsAux_token u.data [] hus (by simp [hu])]
    simp [mk_data]
  rw [parse_size_two _ _ _ hsplit,
    show pyFloat (String.mk (fmt2chars n)) = some ((n : ℚ) / 100) from pyFloatVal_fmt2chars n]

/-! Facts about half-even rounding and the two-decimal format. -/

theorem rnd2_intCast (n : ℤ) : rnd2 ((n : ℚ)) = n := by
  unfold rnd2
  rw [Int.floor_intCast]
  norm_num

theorem rnd2_natCast (n : ℕ) : rnd2 ((n : ℚ)) = (n : ℤ) := by
  have h : ((n : ℚ)) = (((n : ℤ) : ℚ)) := by push_cast; ring
  rw [h, rnd2_intCast]

theorem rnd2_nonneg (x : ℚ) (hx : 0 ≤ x) : 0 ≤ rnd2 x := by
  unfold rnd2
  have h1 : (0 : ℤ) ≤ ⌊x⌋ := Int.floor_nonneg.mpr hx
  split_ifs <;> omega

theorem rnd2_near (x : ℚ) : |(rnd2 x : ℚ) - x| ≤ 1 / 2 := by
  unfold rnd2
  have h1 : (⌊x⌋ : ℚ) ≤ x := Int.floor_le x
  have h2 : x < ⌊x⌋ + 1 := Int.lt_floor_add_one x
  split_ifs with ha hb hc <;> rw [abs_le] <;> push_cast <;>
    constructor <;> linarith

theorem rnd2_toNat_q (x : ℚ) (hx : 0 ≤ x) :
    (((rnd2 x).toNat : ℕ) : ℚ) = ((rnd2 x : ℤ) : ℚ) := by
  have h := Int.toNat_of_nonneg (rnd2_nonneg x hx)
  exact_mod_cast congrArg (fun z : ℤ => (z : ℚ)) h

theorem parsed_near (y : ℚ) (hy : 0 ≤ y) :
    |(((rnd2 (y * 100)).toNat : ℕ) : ℚ) / 100 - y| ≤ 1 / 200 := by
  have h100 : (0 : ℚ) ≤ y * 100 := by positivity
  rw [rnd2_toNat_q _ h100]
  have h := rnd2_near (y * 100)
  rw [abs_le] at h ⊢
  constructor <;> linarith [h.1, h.2]

theorem parsed_exact (m : ℕ) :
    (((rnd2 ((m : ℚ) * 100)).toNat : ℕ) : ℚ) / 100 = (m : ℚ) := by
  have h : ((m : ℚ) * 100) = (((m * 100 : ℕ) : ℚ)) := by push_cast; ring
  rw [h, rnd2_natCast]
  rw [Int.toNat_natCast]
  push_cast
  field_simp

theorem fmt2_of_mul_eq (q : ℚ) (n : ℕ) (h : q * 100 = (n : ℚ)) :
    fmt2 q = String.mk (fmt2chars n) := by
  unfold fmt2
  rw [h, rnd2_natCast, Int.toNat_natCast]

/-! Facts about the `format_size` loop. -/

theorem format_size_of_core (b x : ℚ) (u : String)
    (h : format_size_core b pacUnits = (x, u)) :
    format_size b = fmt2 x ++ " " ++ u := by
  unfold format_size
  rw [h]

theorem format_size_rm_of_core (b x : ℚ) (u : String)
    (h : format_size_core b rmUnits = (x, u)) :
    format_size_rm b = fmt2 x ++ " " ++ u := by
  unfold format_size_rm
  rw [h]

theorem core_pac_B (b : ℚ) (h : b < 1024) :
    format_size_core b pacUnits = (b, "B") := by
  simp only [pacUnits, format_size_core]
  rw [if_pos h]

theorem core_pac_K (b : ℚ) (h1 : 1024 ≤ b) (h2 : b < 1024 ^ 2) :
    format_size_core b pacUnits = (b / 1024 ^ 1, "KiB") := by
  have e1 : ¬ b < 1024 := not_lt.mpr h1
  have e2 : b / 1024 < 1024 := by
    rw [div_lt_iff (by norm_num : (0 : ℚ) < 1024)]
    norm_num at h2 ⊢
    linarith
  simp only [pacUnits, format_size_core]
  rw [if_neg e1, if_pos e2, pow_one]

theorem core_pac_M (b : ℚ) (h1 : 1024 ^ 2 ≤ b) (h2 : b < 1024 ^ 3) :
    format_size_core b pacUnits = (b / 1024 ^ 2, "MiB") := by
  have e1 : ¬ b < 1024 := by norm_num at h1 ⊢; linarith
  have e2 : ¬ b / 1024 < 1024 := by
    rw [not_lt, le_div_iff (by norm_num : (0 : ℚ) < 1024)]
    norm_num at h1 ⊢
    linarith
  have e3 : b / 1024 / 1024 < 1024 := by
    rw [div_div, div_lt_iff (by norm_num : (0 : ℚ) < 1024 * 1024)]
    norm_num at h2 ⊢
    linarith
  simp only [pacUnits, format_size_core]
  rw [if_neg e1, if_neg e2, if_pos e3, div_div]
  norm_num

theorem core_pac_G (b : ℚ) (h1 : 1024 ^ 3 ≤ b) (h2 : b < 1024 ^ 4) :
    format_size_core b pacUnits = (b / 1024 ^ 3, "GiB") := by
  have e1 : ¬ b < 1024 := by norm_num at h1 ⊢; linarith
  have e2 : ¬ b / 1024 < 1024 := by
    rw [not_lt, le_div_iff (by norm_num : (0 : ℚ) < 1024)]
    norm_num at h1 ⊢
    linarith
  have e3 : ¬ b / 1024 / 1024 < 1024 := by
    rw [div_div, not_lt, le_div_iff (by norm_num : (0 : ℚ) < 1024 * 1024)]
    norm_num at h1 ⊢
    linarith
  have e4 : b / 1024 / 1024 / 1024 < 1024 := by
    rw [div_div, div_div, div_lt_iff (by norm_num : (0 : ℚ) < 1024 * (1024 * 1024))]
    norm_num at h2 ⊢
    linarith
  simp only [pacUnits, format_size_core]
  rw [if_neg e1, if_neg e2, if_neg e3, if_pos e4, div_div, div_div]
  norm_num

theorem core_pac_T (b : ℚ) (h1 : 1024 ^ 4 ≤ b) :
    format_size_core b pacUnits = (b / 1024 ^ 4, "TiB") := by
  have e1 : ¬ b < 1024 := by norm_num at h1 ⊢; linarith
  have e2 : ¬ b / 1024 < 1024 := by
    rw [not_lt, le_div_iff (by norm_num : (0 : ℚ) < 1024)]
    norm_num at h1 ⊢
    linarith
  have e3 : ¬ b / 1024 / 1024 < 1024 := by
    rw [div_div, not_lt, le_div_iff (by norm_num : (0 : ℚ) < 1024 * 1024)]
    norm_num at h1 ⊢
    linarith
  have e4 : ¬ b / 1024 / 1024 / 1024 < 1024 := by
    rw [div_div, div_div, not_lt,
      le_div_iff (by norm_num : (0 : ℚ) < 1024 * (1024 * 1024))]
    norm_num at h1 ⊢
    linarith
  simp only [pacUnits, format_size_core]
  rw [if_neg e1, if_neg e2, if_neg e3, if_neg e4, div_div, div_div, div_div]
  norm_num

theorem core_rm_B (b : ℚ) (h : b < 1024) :
    format_size_core b rmUnits = (b, "B") := by
  simp only [rmUnits, format_size_core]
  rw [if_pos h]

theorem core_rm_K (b : ℚ) (h1 : 1024 ≤ b) (h2 : b < 1024 ^ 2) :
    format_size_core b rmUnits = (b / 1024 ^ 1, "KiB") := by
  have e1 : ¬ b < 1024 := not_lt.mpr h1
  have e2 : b / 1024 < 1024 := by
    rw [div_lt_iff (by norm_num : (0 : ℚ) < 1024)]
    norm_num at h2 ⊢
    linarith
  simp only [rmUnits, format_size_core]
  rw [if_neg e1, if_pos e2, pow_one]

theorem core_rm_M (b : ℚ) (h1 : 1024 ^ 2 ≤ b) (h2 : b < 1024 ^ 3) :
    format_size_core b rmUnits = (b / 1024 ^ 2, "MiB") := by
  have e1 : ¬ b < 1024 := by norm_num at h1 ⊢; linarith
  have e2 : ¬ b / 1024 < 1024 := by
    rw [not_lt, le_div_iff (by norm_num : (0 : ℚ) < 1024)]
    norm_num at h1 ⊢
    linarith
  have e3 : b / 1024 / 1024 < 1024 := by
    rw [div_div, div_lt_iff (by norm_num : (0 : ℚ) < 1024 * 1024)]
    norm_num at h2 ⊢
    linarith
  simp only [rmUnits, format_size_core]
  rw [if_neg e1, if_neg e2, if_pos e3, div_div]
  norm_num

theorem core_rm_G (b : ℚ) (h1 : 1024 ^ 3 ≤ b) (h2 : b < 1024 ^ 4) :
    format_size_core b rmUnits = (b / 1024 ^ 3, "GiB") := by
  have e1 : ¬ b < 1024 := by norm_num at h1 ⊢; linarith
  have e2 : ¬ b / 1024 < 1024 := by
    rw [not_lt, le_div_iff (by norm_num : (0 : ℚ) < 1024)]
    norm_num at h1 ⊢
    linarith
  have e3 : ¬ b / 1024 / 1024 < 1024 := by
    rw [div_div, not_lt, le_div_iff (by norm_num : (0 : ℚ) < 1024 * 1024)]
    norm_num at h1 ⊢
    linarith
  have e4 : b / 1024 / 1024 / 1024 < 1024 := by
    rw [div_div, div_div, div_lt_iff (by norm_num : (0 : ℚ) < 1024 * (1024 * 1024))]
    norm_num at h2 ⊢
    linarith
  simp only [rmUnits, format_size_core]
  rw [if_neg e1, if_neg e2, if_neg e3, if_pos e4, div_div, div_div]
  norm_num

theorem core_rm_T (b : ℚ) (h1 : 1024 ^ 4 ≤ b) (h2 : b < 1024 ^ 5) :
    format_size_core b rmUnits = (b / 1024 ^ 4, "TiB") := by
  have e1 : ¬ b < 1024 := by norm_num at h1 ⊢; linarith
  have e2 : ¬ b / 1024 < 1024 := by
    rw [not_lt, le_div_iff (by norm_num : (0 : ℚ) < 1024)]
    norm_num at h1 ⊢
    linarith
  have e3 : ¬ b / 1024 / 1024 < 1024 := by
    rw [div_div, not_lt, le_div_iff (by norm_num : (0 : ℚ) < 1024 * 1024)]
    norm_num at h1 ⊢
    linarith
  have e4 : ¬ b / 1024 / 1024 / 1024 < 1024 := by
    rw [div_div, div_div, not_lt,
      le_div_iff (by norm_num : (0 : ℚ) < 1024 * (1024 * 1024))]
    norm_num at h1 ⊢
    linarith
  have e5 : b / 1024 / 1024 / 1024 / 1024 < 1024 := by
    rw [div_div, div_div, div_div,
      div_lt_iff (by norm_num : (0 : ℚ) < 1024 * (1024 * (1024 * 1024)))]
    norm_num at h2 ⊢
    linarith
  simp only [rmUnits, format_size_core]
  rw [if_neg e1, if_neg e2, if_neg e3, if_neg e4, if_pos e5, div_div, div_div, div_div]
  norm_num

theorem core_rm_over (b : ℚ) (h1 : 1024 ^ 5 ≤ b) :
    format_size_core b rmUnits = (b / 1024 ^ 5, "TiB") := by
  have e1 : ¬ b < 1024 := by norm_num at h1 ⊢; linarith
  have e2 : ¬ b / 1024 < 1024 := by
    rw [not_lt, le_div_iff (by norm_num : (0 : ℚ) < 1024)]
    norm_num at h1 ⊢
    linarith
  have e3 : ¬ b / 1024 / 1024 < 1024 := by
    rw [div_div, not_lt, le_div_iff (by norm_num : (0 : ℚ) < 1024 * 1024)]
    norm_num at h1 ⊢
    linarith
  have e4 : ¬ b / 1024 / 1024 / 1024 < 1024 := by
    rw [div_div, div_div, not_lt,
      le_div_iff (by norm_num : (0 : ℚ) < 1024 * (1024 * 1024))]
    norm_num at h1 ⊢
    linarith
  have e5 : ¬ b / 1024 / 1024 / 1024 / 1024 < 1024 := by
    rw [div_div, div_div, div_div, not_lt,
      le_div_iff (by norm_num : (0 : ℚ) < 1024 * (1024 * (1024 * 1024)))]
    norm_num at h1 ⊢
    linarith
  simp only [rmUnits, format_size_core]
  rw [if_neg e1, if_neg e2, if_neg e3, if_neg e4, if_neg e5,
    div_div, div_div, div_div, div_div]
  norm_num

/-! Evaluation of the multiplier table at the unit literals. -/

theorem multipliers_B : multipliers "B" = 1024 ^ 0 := by
  unfold multipliers
  rw [if_pos rfl]
  norm_num

theorem multipliers_KiB : multipliers "KiB" = 1024 ^ 1 := by
  unfold multipliers
  rw [if_neg (by decide), if_pos rfl]
  norm_num

theorem multipliers_MiB : multipliers "MiB" = 1024 ^ 2 := by
  unfold multipliers
  rw [if_neg (by decide), if_neg (by decide), if_pos rfl]

theorem multipliers_GiB : multipliers "GiB" = 1024 ^ 3 := by
  unfold multipliers
  rw [if_neg (by decide), if_neg (by decide), if_neg (by decide), if_pos rfl]

theorem multipliers_TiB : multipliers "TiB" = 1024 ^ 4 := by
  unfold multipliers
  rw [if_neg (by decide), if_neg (by decide), if_neg (by decide), if_neg (by decide),
    if_pos rfl]

/-! Round-trip: parsing the formatted string recovers the value up to the
two-decimal rounding of the mantissa. -/

theorem roundtrip_at (b : ℚ) (k : ℕ) (u : String) (hu : u.data ≠ [])
    (hus : ∀ c ∈ u.data, isSpace c = false) (hmult : multipliers u = 1024 ^ k)
    (hb : (1024 : ℚ) ^ k ≤ b) :
    ∃ q : ℚ, parse_size (fmt2 (b / 1024 ^ k) ++ " " ++ u) = .ok q ∧
      |q - b| ≤ b / 200 := by
  have hpk : (0 : ℚ) < 1024 ^ k := by positivity
  have hy : 0 ≤ b / 1024 ^ k := by
    have hb0 : 0 ≤ b := le_trans hpk.le hb
    positivity
  refine ⟨(((rnd2 (b / 1024 ^ k * 100)).toNat : ℕ) : ℚ) / 100 * multipliers u, ?_, ?_⟩
  · rw [show fmt2 (b / 1024 ^ k) =
        String.mk (fmt2chars ((rnd2 (b / 1024 ^ k * 100)).toNat)) from rfl]
    exact parse_size_fmtstr _ u hu hus
  · rw [hmult]
    have hn := parsed_near (b / 1024 ^ k) hy
    have hbeq : b / 1024 ^ k * 1024 ^ k = b := div_mul_cancel₀ b hpk.ne'
    rw [abs_le] at hn ⊢
    have key : ((((rnd2 (b / 1024 ^ k * 100)).toNat : ℕ) : ℚ) / 100 - b / 1024 ^ k) *
        1024 ^ k = (((rnd2 (b / 1024 ^ k * 100)).toNat : ℕ) : ℚ) / 100 * 1024 ^ k - b := by
      rw [sub_mul, hbeq]
    constructor
    · have h1 := mul_le_mul_of_nonneg_right hn.1 hpk.le
      rw [key] at h1
      linarith [h1, hb]
    · have h2 := mul_le_mul_of_nonneg_right hn.2 hpk.le
      rw [key] at h2
      linarith [h2, hb]

theorem roundtrip_pac (b : ℕ) :
    ∃ q : ℚ, parse_size (format_size (b : ℚ)) = .ok q ∧
      |q - (b : ℚ)| ≤ (b : ℚ) / 200 := by
  rcases lt_or_le ((b : ℚ)) 1024 with h1 | h1
  · rw [format_size_of_core _ _ _ (core_pac_B _ h1)]
    refine ⟨(b : ℚ), ?_, ?_⟩
    · rw [show fmt2 ((b : ℚ)) =
          String.mk (fmt2chars ((rnd2 ((b : ℚ) * 100)).toNat)) from rfl,
        parse_size_fmtstr _ "B" (by decide) (by decide), multipliers_B,
        pow_zero, parsed_exact b, mul_one]
    · rw [sub_self, abs_zero]
      positivity
  rcases lt_or_le ((b : ℚ)) (1024 ^ 2) with h2 | h2
  · rw [format_size_of_core _ _ _ (core_pac_K _ h1 h2)]
    exact roundtrip_at _ 1 "KiB" (by decide) (by decide) multipliers_KiB
      (by rw [pow_one]; exact h1)
  rcases lt_or_le ((b : ℚ)) (1024 ^ 3) with h3 | h3
  · rw [format_size_of_core _ _ _ (core_pac_M _ h2 h3)]
    exact roundtrip_at _ 2 "MiB" (by decide) (by decide) multipliers_MiB h2
  rcases lt_or_le ((b : ℚ)) (1024 ^ 4) with h4 | h4
  · rw [format_size_of_core _ _ _ (core_pac_G _ h3 h4)]
    exact roundtrip_at _ 3 "GiB" (by decide) (by decide) multipliers_GiB h3
  · rw [format_size_of_core _ _ _ (core_pac_T _ h4)]
    exact roundtrip_at _ 4 "TiB" (by decide) (by decide) multipliers_TiB h4

theorem format_size_rm_eq (b : ℚ) (h : b < 1024 ^ 5) :
    format_size_rm b = format_size b := by
  rcases lt_or_le b 1024 with h1 | h1
  · rw [format_size_rm_of_core _ _ _ (core_rm_B _ h1),
      format_size_of_core _ _ _ (core_pac_B _ h1)]
  rcases lt_or_le b (1024 ^ 2) with h2 | h2
  · rw [format_size_rm_of_core _ _ _ (core_rm_K _ h1 h2),
      format_size_of_core _ _ _ (core_pac_K _ h1 h2)]
  rcases lt_or_le b (1024 ^ 3) with h3 | h3
  · rw [format_size_rm_of_core _ _ _ (core_rm_M _ h2 h3),
      format_size_of_core _ _ _ (core_pac_M _ h2 h3)]
  rcases lt_or_le b (1024 ^ 4) with h4 | h4
  · rw [format_size_rm_of_core _ _ _ (core_rm_G _ h3 h4),
      format_size_of_core _ _ _ (core_pac_G _ h3 h4)]
  · rw [format_size_rm_of_core _ _ _ (core_rm_T _ h4 h),
      format_size_of_core _ _ _ (core_pac_T _ h4)]

/-- C1 counterexample: the claim quantifies over the size formatter, but the
pacremove.py `format_size` divides once more than its unit list can label:
at `b = 1024 ^ 5` it prints `"1.00 TiB"`, which parses back to `1024 ^ 4`,
off by a factor of 1024 — far outside rounding tolerance. -/
theorem claim_c1_counterexample :
    parse_size (format_size_rm ((1024 : ℚ) ^ 5)) = .ok ((1024 : ℚ) ^ 4) ∧
    ¬ (|(1024 : ℚ) ^ 4 - (1024 : ℚ) ^ 5| ≤ (1024 : ℚ) ^ 5 / 200) := by
  constructor
  · rw [format_size_rm_of_core _ _ _ (core_rm_over _ (le_refl _)),
      fmt2_of_mul_eq _ 100 (by norm_num),
      parse_size_fmtstr 100 "TiB" (by decide) (by decide), multipliers_TiB]
    norm_num
  · rw [abs_of_neg (show ((1024 : ℚ) ^ 4 - 1024 ^ 5) < 0 by norm_num)]
    norm_num

/-- C1 (amended): for the pacsize.py formatter the round-trip law holds for
every byte count `b ≥ 0` with relative tolerance `b / 200` (half a unit in
the second decimal of the mantissa); for the pacremove.py formatter it holds
for every `b < 1024 ^ 5` (the two formatters agree there), and fails above
(see the counterexample). -/
theorem claim_c1_theorem :
    (∀ b : ℕ, ∃ q : ℚ, parse_size (format_size ((b : ℚ))) = .ok q ∧
      |q - (b : ℚ)| ≤ (b : ℚ) / 200) ∧
    (∀ b : ℕ, b < 1024 ^ 5 → ∃ q : ℚ, parse_size (format_size_rm ((b : ℚ))) = .ok q ∧
      |q - (b : ℚ)| ≤ (b : ℚ) / 200) := by
  refine ⟨fun b => roundtrip_pac b, fun b hb => ?_⟩
  rw [format_size_rm_eq _ (by exact_mod_cast hb)]
  exact roundtrip_pac b

/-- C1 witness: the amended round-trip law applied at `b = 1536`. -/
theorem claim_c1_witness :
    ∃ q : ℚ, parse_size (format_size_rm (((1536 : ℕ) : ℚ))) = .ok q ∧
      |q - ((1536 : ℕ) : ℚ)| ≤ ((1536 : ℕ) : ℚ) / 200 :=
  claim_c1_theorem.2 1536 (by norm_num)

/-- C2 counterexample: at `b = 1024 ^ 5` the pacsize.py formatter stops at
the `"TiB"` fallback with mantissa exactly 1024, not below 1024: it prints
`"1024.00 TiB"`. -/
theorem claim_c2_counterexample :
    format_size_core ((1024 : ℚ) ^ 5) pacUnits = ((1024 : ℚ), "TiB") ∧
    ¬ ((format_size_core ((1024 : ℚ) ^ 5) pacUnits).1 < 1024) ∧
    format_size ((1024 : ℚ) ^ 5) = "1024.00 TiB" := by
  have hc : format_size_core ((1024 : ℚ) ^ 5) pacUnits = ((1024 : ℚ), "TiB") := by
    rw [core_pac_T _ (by norm_num)]
    norm_num
  refine ⟨hc, ?_, ?_⟩
  · rw [hc]
    norm_num
  · rw [format_size_of_core _ _ _ hc, fmt2_of_mul_eq _ 102400 (by norm_num)]
    decide

/-- C2 (amended): for every byte count below `1024 ^ 5` the formatter scales
to the largest unit of the table `B, KiB, MiB, GiB, TiB` keeping the mantissa
below 1024 (and at least 1 except in the `B` bucket), both script versions
agreeing; the four concrete example values hold.  At `1024 ^ 5` and above the
mantissa invariant fails (see the counterexample). -/
theorem claim_c2_theorem :
    (∀ b : ℕ, (b : ℚ) < 1024 ^ 5 →
      ∃ k, k ≤ 4 ∧
        format_size_core ((b : ℚ)) pacUnits = ((b : ℚ) / 1024 ^ k, rmUnits.getD k "TiB") ∧
        (b : ℚ) / 1024 ^ k < 1024 ∧ (k = 0 ∨ (1024 : ℚ) ^ k ≤ (b : ℚ)) ∧
        format_size_rm ((b : ℚ)) = format_size ((b : ℚ))) ∧
    format_size 0 = "0.00 B" ∧ format_size 1024 = "1.00 KiB" ∧
    format_size 1536 = "1.50 KiB" ∧ format_size ((1024 : ℚ) ^ 3) = "1.00 GiB" ∧
    format_size_rm 0 = "0.00 B" ∧ format_size_rm 1024 = "1.00 KiB" ∧
    format_size_rm 1536 = "1.50 KiB" ∧ format_size_rm ((1024 : ℚ) ^ 3) = "1.00 GiB" := by
  have hf0 : format_size 0 = "0.00 B" := by
    rw [format_size_of_core _ _ _ (core_pac_B 0 (by norm_num)),
      fmt2_of_mul_eq _ 0 (by norm_num)]
    decide
  have hf1 : format_size 1024 = "1.00 KiB" := by
    rw [format_size_of_core _ _ _ (core_pac_K 1024 (by norm_num) (by norm_num)),
      fmt2_of_mul_eq _ 100 (by norm_num)]
    decide
  have hf2 : format_size 1536 = "1.50 KiB" := by
    rw [format_size_of_core _ _ _ (core_pac_K 1536 (by norm_num) (by norm_num)),
      fmt2_of_mul_eq _ 150 (by norm_num)]
    decide
  have hf3 : format_size ((1024 : ℚ) ^ 3) = "1.00 GiB" := by
    rw [format_size_of_core _ _ _ (core_pac_G _ (by norm_num) (by norm_num)),
      fmt2_of_mul_eq _ 100 (by norm_num)]
    decide
  refine ⟨?_, hf0, hf1, hf2, hf3, ?_, ?_, ?_, ?_⟩
  · intro b hb
    rcases lt_or_le ((b : ℚ)) 1024 with h1 | h1
    · refine ⟨0, by norm_num, ?_, by simpa using h1, Or.inl rfl,
        format_size_rm_eq _ hb⟩
      rw [core_pac_B _ h1]
      norm_num
      decide
    rcases lt_or_le ((b : ℚ)) (1024 ^ 2) with h2 | h2
    · refine ⟨1, by norm_num, ?_, ?_, Or.inr (by rw [pow_one]; exact h1),
        format_size_rm_eq _ hb⟩
      · rw [core_pac_K _ h1 h2]
        rfl
      · rw [pow_one, div_lt_iff (by norm_num : (0 : ℚ) < 1024)]
        norm_num at h2 ⊢
        linarith
    rcases lt_or_le ((b : ℚ)) (1024 ^ 3) with h3 | h3
    · refine ⟨2, by norm_num, ?_, ?_, Or.inr h2, format_size_rm_eq _ hb⟩
      · rw [core_pac_M _ h2 h3]
        rfl
      · rw [div_lt_iff (by positivity : (0 : ℚ) < 1024 ^ 2)]
        norm_num at h3 ⊢
        linarith
    rcases lt_or_le ((b : ℚ)) (1024 ^ 4) with h4 | h4
    · refine ⟨3, by norm_num, ?_, ?_, Or.inr h3, format_size_rm_eq _ hb⟩
      · rw [core_pac_G _ h3 h4]
        rfl
      · rw [div_lt_iff (by positivity : (0 : ℚ) < 1024 ^ 3)]
        norm_num at h4 ⊢
        linarith
    · refine ⟨4, le_refl 4, ?_, ?_, Or.inr h4, format_size_rm_eq _ hb⟩
      · rw [core_pac_T _ h4]
        rfl
      · rw [div_lt_iff (by positivity : (0 : ℚ) < 1024 ^ 4)]
        norm_num at hb ⊢
        linarith
  · rw [format_size_rm_eq _ (by norm_num)]
    exact hf0
  · rw [format_size_rm_eq _ (by norm_num)]
    exact hf1
  · rw [format_size_rm_eq _ (by norm_num)]
    exact hf2
  · rw [format_size_rm_eq _ (by norm_num)]
    exact hf3

/-- C2 witness: the amended mantissa invariant applied at `b = 1536`. -/
theorem claim_c2_witness :
    ∃ k, k ≤ 4 ∧
      format_size_core (((1536 : ℕ) : ℚ)) pacUnits =
        (((1536 : ℕ) : ℚ) / 1024 ^ k, rmUnits.getD k "TiB") ∧
      ((1536 : ℕ) : ℚ) / 1024 ^ k < 1024 ∧ (k = 0 ∨ (1024 : ℚ) ^ k ≤ ((1536 : ℕ) : ℚ)) ∧
      format_size_rm (((1536 : ℕ) : ℚ)) = format_size (((1536 : ℕ) : ℚ)) :=
  claim_c2_theorem.1 1536 (by norm_num)

/-! The removal-size summation loop. -/

theorem runRemovalLines_digit (l : String) (ls : List String) (acc : ℕ)
    (hd : pyIsDigit (pyStrip l) = true) :
    runRemovalLines (l :: ls) acc =
      runRemovalLines ls (acc + digitsToNat (pyStrip l).data) := by
  simp only [runRemovalLines, pyInt, hd]
  rfl

theorem runRemovalLines_skip (l : String) (ls : List String) (acc : ℕ)
    (hd : pyIsDigit (pyStrip l) = false) :
    runRemovalLines (l :: ls) acc = runRemovalLines ls acc := by
  simp only [runRemovalLines, hd]
  rfl

theorem runRemovalLines_ok : ∀ (ls : List String) (acc : ℕ),
    ∃ n, runRemovalLines ls acc = .ok n := by
  intro ls
  induction ls with
  | nil => exact fun acc => ⟨acc, rfl⟩
  | cons l t ih =>
    intro acc
    by_cases hd : pyIsDigit (pyStrip l) = true
    · rw [runRemovalLines_digit l t acc hd]
      exact ih _
    · rw [runRemovalLines_skip l t acc (by simpa using hd)]
      exact ih _

/-- C3 counterexample: the spec claims parsing never raises for any
"Installed Size" value string, but `parse_size` calls `float()` on the first
of two tokens, which raises `ValueError` on `"abc def"`. -/
theorem claim_c3_counterexample : parse_size "abc def" = .error "ValueError" := rfl

/-- C3 (amended): the removal-size parser never raises on any line list, and
`parse_size` silently returns 0 on a value string that does not split into
exactly two tokens, and succeeds on two tokens whose first is a valid float
literal; but a two-token value whose first token is not a float literal
raises `ValueError` (see the counterexample). -/
theorem claim_c3_theorem :
    (∀ (ls : List String) (acc : ℕ), ∃ n, runRemovalLines ls acc = .ok n) ∧
    (∀ s : String, (pySplitWs s).length ≠ 2 → parse_size s = .ok 0) ∧
    (∀ (s v u : String) (q : ℚ), pySplitWs s = [v, u] → pyFloat v = some q →
      parse_size s = .ok (q * multipliers u)) := by
  refine ⟨runRemovalLines_ok, ?_, ?_⟩
  · intro s h
    rcases hl : pySplitWs s with _ | ⟨v1, tl1⟩
    · unfold parse_size
      rw [hl]
    rcases tl1 with _ | ⟨v2, tl2⟩
    · unfold parse_size
      rw [hl]
    rcases tl2 with _ | ⟨v3, tl3⟩
    · exact absurd (by rw [hl]; rfl) h
    · unfold parse_size
      rw [hl]
  · intro s v u q hs hf
    rw [parse_size_two s v u hs, hf]

/-- C3 witness: the amended parsing-safety facts at concrete inputs. -/
theorem claim_c3_witness :
    (∃ n, runRemovalLines ["7", "x"] 0 = .ok n) ∧ parse_size "zz" = .ok 0 ∧
    parse_size "1.50 KiB" = .ok ((3 / 2 : ℚ) * multipliers "KiB") := by
  refine ⟨claim_c3_theorem.1 ["7", "x"] 0, claim_c3_theorem.2.1 "zz" (by decide), ?_⟩
  have hf : pyFloat "1.50" = some ((3 / 2 : ℚ)) := by
    have h1 : pyFloat "1.50" = some (((150 : ℕ) : ℚ) / 100) := by
      rw [show ("1.50" : String) = String.mk (fmt2chars 150) from by decide]
      exact pyFloatVal_fmt2chars 150
    rw [h1]
    norm_num
  exact claim_c3_theorem.2.2 "1.50 KiB" "1.50" "KiB" (3 / 2) (by decide) hf

/-- C5: the removal-size parser adds a trimmed line exactly when it is all
digits, ignores every other line, and on the example mixed line list the
total is 13023. -/
theorem claim_c5_theorem :
    runRemovalLines ["12345", "", "  ", "abc", "678"] 0 = .ok 13023 ∧
    (∀ (acc : ℕ) (l : String) (ls : List String), pyIsDigit (pyStrip l) = true →
      runRemovalLines (l :: ls) acc =
        runRemovalLines ls (acc + digitsToNat (pyStrip l).data)) ∧
    (∀ (acc : ℕ) (l : String) (ls : List String), pyIsDigit (pyStrip l) = false →
      runRemovalLines (l :: ls) acc = runRemovalLines ls acc) :=
  ⟨by rfl, fun acc l ls hd => runRemovalLines_digit l ls acc hd,
    fun acc l ls hd => runRemovalLines_skip l ls acc hd⟩

/-- C5 witness: a non-digit line is skipped. -/
theorem claim_c5_witness :
    runRemovalLines ["abc", "678"] 5 = runRemovalLines ["678"] 5 :=
  claim_c5_theorem.2.2 5 "abc" ["678"] (by decide)

/-- C8: the location heuristic classifies the three example names as the
spec says. -/
theorem claim_c8_theorem :
    guess_location "rocm-hip-sdk" = "/opt" ∧ guess_location "hip-runtime" = "/opt" ∧
    guess_location "glibc" = "/usr" :=
  ⟨rfl, rfl, rfl⟩

/-- C9: the location heuristic is total with range exactly the two buckets,
and any name starting with one of the ten literal alternatives of the
anchored regex goes to `/opt` — including non-ROCm names that merely start
with `roc` or `amd`. -/
theorem claim_c9_theorem :
    (∀ pkg : String, guess_location pkg = "/opt" ∨ guess_location pkg = "/usr") ∧
    (∀ pkg p : String, p ∈ opt_patterns → startsWithPy pkg p = true →
      guess_location pkg = "/opt") ∧
    guess_location "rocksdb" = "/opt" ∧ guess_location "amdvlk" = "/opt" := by
  refine ⟨?_, ?_, rfl, rfl⟩
  · intro pkg
    unfold guess_location
    split_ifs
    · exact Or.inl rfl
    · exact Or.inr rfl
  · intro pkg p hp hpre
    unfold guess_location
    rw [if_pos]
    exact List.any_eq_true.mpr ⟨p, hp, hpre⟩

/-- C9 witness: the prefix rule applied to a concrete name. -/
theorem claim_c9_witness : guess_location "rocm-smi-lib" = "/opt" :=
  claim_c9_theorem.2.1 "rocm-smi-lib" "rocm-" (by decide) (by decide)

/-! Concrete evaluations of `parse_size` on the example size strings. -/

theorem parse_size_2MiB : parse_size "2.00 MiB" = .ok 2097152 := by
  rw [show ("2.00 MiB" : String) = String.mk (fmt2chars 200) ++ " " ++ "MiB" from by decide,
    parse_size_fmtstr 200 "MiB" (by decide) (by decide), multipliers_MiB]
  norm_num

theorem parse_size_512KiB : parse_size "512.00 KiB" = .ok 524288 := by
  rw [show ("512.00 KiB" : String) = String.mk (fmt2chars 51200) ++ " " ++ "KiB" from by decide,
    parse_size_fmtstr 51200 "KiB" (by decide) (by decide), multipliers_KiB]
  norm_num

/-! Single steps of the batch block parser. -/

theorem procLine_size_2MiB (sizes : List (String × ℚ)) (pkg : String) (hp : pkg ≠ "") :
    procLine (sizes, some pkg) "Installed Size: 2.00 MiB" =
      .ok (dictInsert sizes pkg 2097152, none) := by
  have h1 : procLine (sizes, some pkg) "Installed Size: 2.00 MiB" =
      if pkg ≠ "" then
        match parse_size "2.00 MiB" with
        | .ok v => .ok (dictInsert sizes pkg v, none)
        | .error e => .error e
      else .ok (sizes, some pkg) := rfl
  rw [h1, if_pos hp, parse_size_2MiB]

theorem procLine_size_512KiB (sizes : List (String × ℚ)) (pkg : String) (hp : pkg ≠ "") :
    procLine (sizes, some pkg) "Installed Size: 512.00 KiB" =
      .ok (dictInsert sizes pkg 524288, none) := by
  have h1 : procLine (sizes, some pkg) "Installed Size: 512.00 KiB" =
      if pkg ≠ "" then
        match parse_size "512.00 KiB" with
        | .ok v => .ok (dictInsert sizes pkg v, none)
        | .error e => .error e
      else .ok (sizes, some pkg) := rfl
  rw [h1, if_pos hp, parse_size_512KiB]

theorem runLines_cons (l : String) (ls : List String)
    (st st2 : List (String × ℚ) × Option String) (h : procLine st l = .ok st2) :
    runLines (l :: ls) st = runLines ls st2 := by
  simp only [runLines, h]

theorem parsePacmanOutput_of (out : String) (m : List (String × ℚ)) (cur : Option String)
    (h : runLines (pySplitLines out) ([], none) = .ok (m, cur)) :
    parsePacmanOutput out = .ok m := by
  unfold parsePacmanOutput
  rw [h]

/-- C4: the batch block parser is the described two-state machine (a `Name`
line sets the current package, an `Installed Size` line with a set current
package stores the parsed value and clears it), and on the example block it
produces exactly the claimed map. -/
theorem claim_c4_theorem :
    (∀ (sizes : List (String × ℚ)) (cur : Option String),
      procLine (sizes, cur) "Name: foo" = .ok (sizes, some "foo")) ∧
    (∀ sizes : List (String × ℚ),
      procLine (sizes, some "foo") "Installed Size: 2.00 MiB" =
        .ok (dictInsert sizes "foo" 2097152, none)) ∧
    parsePacmanOutput
        "Name: foo\nInstalled Size: 2.00 MiB\nName: bar\nInstalled Size: 512.00 KiB" =
      .ok [("foo", 2097152), ("bar", 524288)] := by
  refine ⟨fun sizes cur => rfl, fun sizes => procLine_size_2MiB sizes "foo" (by decide), ?_⟩
  apply parsePacmanOutput_of _ _ none
  have s0 : pySplitLines
        "Name: foo\nInstalled Size: 2.00 MiB\nName: bar\nInstalled Size: 512.00 KiB" =
      ["Name: foo", "Installed Size: 2.00 MiB", "Name: bar", "Installed Size: 512.00 KiB"] := by
    decide
  have s1 : runLines
        ["Name: foo", "Installed Size: 2.00 MiB", "Name: bar", "Installed Size: 512.00 KiB"]
        ([], none) =
      runLines ["Installed Size: 2.00 MiB", "Name: bar", "Installed Size: 512.00 KiB"]
        ([], some "foo") :=
    runLines_cons _ _ _ _ rfl
  have s2 : runLines ["Installed Size: 2.00 MiB", "Name: bar", "Installed Size: 512.00 KiB"]
        ([], some "foo") =
      runLines ["Name: bar", "Installed Size: 512.00 KiB"] ([("foo", 2097152)], none) :=
    runLines_cons _ _ _ _ (procLine_size_2MiB [] "foo" (by decide))
  have s3 : runLines ["Name: bar", "Installed Size: 512.00 KiB"] ([("foo", 2097152)], none) =
      runLines ["Installed Size: 512.00 KiB"] ([("foo", 2097152)], some "bar") :=
    runLines_cons _ _ _ _ rfl
  have s4 : runLines ["Installed Size: 512.00 KiB"] ([("foo", 2097152)], some "bar") =
      runLines [] ([("foo", 2097152), ("bar", 524288)], none) :=
    runLines_cons _ _ _ _ (procLine_size_512KiB [("foo", 2097152)] "bar" (by decide))
  rw [s0, s1, s2, s3, s4]
  rfl

/-! Key uniqueness of the parsed map. -/

theorem dictInsert_keys (m : List (String × ℚ)) (k : String) (v : ℚ) :
    (dictInsert m k v).map Prod.fst =
      if k ∈ m.map Prod.fst then m.map Prod.fst else m.map Prod.fst ++ [k] := by
  induction m with
  | nil => simp [dictInsert]
  | cons p t ih =>
    by_cases hp : p.1 = k
    · simp [dictInsert, hp]
    · simp only [dictInsert, if_neg hp, List.map_cons, ih]
      by_cases hk : k ∈ t.map Prod.fst
      · simp [hk, List.mem_cons]
      · have hnk : ¬ k ∈ p.1 :: t.map Prod.fst := by
          simp only [List.mem_cons, not_or]
          exact ⟨fun h => hp h.symm, hk⟩
        simp [hk, hnk]

theorem dictInsert_nodup (m : List (String × ℚ)) (k : String) (v : ℚ)
    (h : (m.map Prod.fst).Nodup) : ((dictInsert m k v).map Prod.fst).Nodup := by
  rw [dictInsert_keys]
  split_ifs with hk
  · exact h
  · rw [List.nodup_append]
    refine ⟨h, List.nodup_singleton k, ?_⟩
    intro a ha hb
    simp only [List.mem_singleton] at hb
    subst hb
    exact hk ha

theorem procLine_nodup (st : List (String × ℚ) × Option String) (line : String)
    (st2 : List (String × ℚ) × Option String) (h : procLine st line = .ok st2)
    (hn : (st.1.map Prod.fst).Nodup) : (st2.1.map Prod.fst).Nodup := by
  unfold procLine at h
  repeat' split at h
  all_goals first
    | (injection h with h; subst h;
       first
         | exact hn
         | exact dictInsert_nodup _ _ _ hn)
    | exact Except.noConfusion h

theorem runLines_nodup : ∀ (ls : List String) (st res : List (String × ℚ) × Option String),
    runLines ls st = .ok res → (st.1.map Prod.fst).Nodup →
    (res.1.map Prod.fst).Nodup := by
  intro ls
  induction ls with
  | nil =>
    intro st res h hn
    simp only [runLines] at h
    injection h with h
    subst h
    exact hn
  | cons l t ih =>
    intro st res h hn
    rw [show runLines (l :: t) st =
        match procLine st l with
        | .ok st2 => runLines t st2
        | .error e => .error e from rfl] at h
    cases hp : procLine st l with
    | ok st2 =>
      rw [hp] at h
      exact ih st2 res h (procLine_nodup st l st2 hp hn)
    | error e =>
      rw [hp] at h
      exact Except.noConfusion h

/-- C10: the parsed map always has unique package-name keys, and a repeated
complete block with the same name overwrites the earlier size (last write
wins). -/
theorem claim_c10_theorem :
    (∀ (out : String) (m : List (String × ℚ)), parsePacmanOutput out = .ok m →
      (m.map Prod.fst).Nodup) ∧
    parsePacmanOutput
        "Name: foo\nInstalled Size: 2.00 MiB\nName: foo\nInstalled Size: 512.00 KiB" =
      .ok [("foo", 524288)] := by
  constructor
  · intro out m h
    unfold parsePacmanOutput at h
    cases hr : runLines (pySplitLines out) ([], none) with
    | ok st =>
      rw [hr] at h
      injection h with h
      subst h
      exact runLines_nodup _ _ _ hr (by simp)
    | error e =>
      rw [hr] at h
      exact Except.noConfusion h
  · apply parsePacmanOutput_of _ _ none
    have s0 : pySplitLines
          "Name: foo\nInstalled Size: 2.00 MiB\nName: foo\nInstalled Size: 512.00 KiB" =
        ["Name: foo", "Installed Size: 2.00 MiB", "Name: foo", "Installed Size: 512.00 KiB"] := by
      decide
    have s1 : runLines
          ["Name: foo", "Installed Size: 2.00 MiB", "Name: foo", "Installed Size: 512.00 KiB"]
          ([], none) =
        runLines ["Installed Size: 2.00 MiB", "Name: foo", "Installed Size: 512.00 KiB"]
          ([], some "foo") :=
      runLines_cons _ _ _ _ rfl
    have s2 : runLines ["Installed Size: 2.00 MiB", "Name: foo", "Installed Size: 512.00 KiB"]
          ([], some "foo") =
        runLines ["Name: foo", "Installed Size: 512.00 KiB"] ([("foo", 2097152)], none) :=
      runLines_cons _ _ _ _ (procLine_size_2MiB [] "foo" (by decide))
    have s3 : runLines ["Name: foo", "Installed Size: 512.00 KiB"]
          ([("foo", 2097152)], none) =
        runLines ["Installed Size: 512.00 KiB"] ([("foo", 2097152)], some "foo") :=
      runLines_cons _ _ _ _ rfl
    have s4 : runLines ["Installed Size: 512.00 KiB"] ([("foo", 2097152)], some "foo") =
        runLines [] ([("foo", 524288)], none) :=
      runLines_cons _ _ _ _ (procLine_size_512KiB [("foo", 2097152)] "foo" (by decide))
    rw [s0, s1, s2, s3, s4]
    rfl

/-- C10 witness: uniqueness of keys on the duplicate-block example. -/
theorem claim_c10_witness :
    (([("foo", (524288 : ℚ))] : List (String × ℚ)).map Prod.fst).Nodup :=
  claim_c10_theorem.1
    "Name: foo\nInstalled Size: 2.00 MiB\nName: foo\nInstalled Size: 512.00 KiB"
    [("foo", 524288)] claim_c10_theorem.2

/-- C6: on a nonzero return code of the dry-run removal command,
`get_removal_size` surfaces the error banner and the stripped stderr text,
returns the `none` sentinel, and the caller prints no space-freed report. -/
theorem claim_c6_theorem (r : CmdResult) (h : r.returncode ≠ 0) :
    get_removal_size r = (["Error: Pacman returned an error.", pyStrip r.stderr], none) ∧
    removalReport (get_removal_size r).2 = [] := by
  have hg : get_removal_size r =
      (["Error: Pacman returned an error.", pyStrip r.stderr], none) := by
    unfold get_removal_size
    rw [if_pos h]
  exact ⟨hg, by rw [hg]; rfl⟩

/-- C6 witness: the nonzero-exit behaviour at a concrete command result. -/
theorem claim_c6_witness :
    get_removal_size ⟨1, "", "boom"⟩ =
      (["Error: Pacman returned an error.", pyStrip "boom"], none) ∧
    removalReport (get_removal_size ⟨1, "", "boom"⟩).2 = [] :=
  claim_c6_theorem ⟨1, "", "boom"⟩ (by decide)

/-- C7: an empty package list short-circuits the batch query to an empty map
without invoking the external tool, and the aggregation on the empty map
yields zero totals and 0% for both buckets with the zero-division guard. -/
theorem claim_c7_theorem :
    (∀ out : String, get_installed_size_batch [] out = (false, .ok [])) ∧
    accumulateStats (sortSizeDesc []) = (0, 0) ∧
    opt_pct (accumulateStats (sortSizeDesc [])) = 0 ∧
    usr_pct (accumulateStats (sortSizeDesc [])) = 0 := by
  have hs : accumulateStats (sortSizeDesc []) = (0, 0) := rfl
  refine ⟨fun out => rfl, hs, ?_, ?_⟩
  · rw [hs]
    unfold opt_pct
    norm_num
  · rw [hs]
    unfold usr_pct
    norm_num
